import Mathlib

/-
A shallow embedding of the core of `Dataset` (src/hub/core/dataset/dataset.py):
the version-control / namespace / locking / caching behaviour that the
specification describes, together with theorems checking the specification's
claims against this embedding.  Paths are modelled as lists of characters
(Python `str`), machine state is passed explicitly, and fallible operations
return `Except`.  Collaborators of dataset.py that are not part of the two
source files (auto_checkout, the lock module, the LRU cache, tensor handles)
are modelled from the specification's words; every such definition carries a
doc comment starting `Modelled from the spec:`.
-/

/-- A '/'-separated name, as the list of its characters (a Python `str`). -/
abbrev PyStr := List Char

/-- The tail component of `posixpath.split`: the maximal suffix of `p`
containing no '/' (everything after the last slash). -/
def pTail (p : PyStr) : PyStr := (p.reverse.takeWhile (fun c => c ≠ '/')).reverse

/-- The raw head of `posixpath.split`: everything up to and including the
last '/' of `p` (`p[:i]` for `i = p.rfind('/') + 1`). -/
def pHeadRaw (p : PyStr) : PyStr := p.take (p.length - (pTail p).length)

/-- Python `str.rstrip('/')`. -/
def rstripSlash (p : PyStr) : PyStr := (p.reverse.dropWhile (fun c => c = '/')).reverse

/-- Python `str.strip('/')` (used by create_tensor / create_group to
normalize names). -/
def stripSlash (p : PyStr) : PyStr := rstripSlash (p.dropWhile (fun c => c = '/'))

/-- Python `posixpath.split(p)`: `(head, tail)` where `tail` is the part
after the last slash and `head` is the part before it, stripped of trailing
slashes unless it consists of slashes only. -/
def pathSplit (p : PyStr) : PyStr × PyStr :=
  if pHeadRaw p ≠ [] ∧ (pHeadRaw p).any (fun c => c ≠ '/') then (rstripSlash (pHeadRaw p), pTail p)
  else (pHeadRaw p, pTail p)

/-- Python `posixpath.join(a, b)` (the source only ever joins two parts):
an absolute `b` wins; otherwise the parts are glued with a single '/'. -/
def pathJoin (a b : PyStr) : PyStr :=
  if b.head? = some '/' then b
  else if a = [] ∨ a.getLast? = some '/' then a ++ b
  else a ++ '/' :: b

/-- The fixed point of the source's `while "//" in name: name =
name.replace("//", "/")` loop: every run of slashes collapses to one. -/
def collapseSlash : PyStr → PyStr
  | [] => []
  | [c] => [c]
  | c1 :: c2 :: rest =>
    if c1 = '/' ∧ c2 = '/' then collapseSlash (c2 :: rest)
    else c1 :: collapseSlash (c2 :: rest)

/-- Name normalization shared by create_tensor and create_group:
`name.strip("/")` followed by collapsing repeated slashes. -/
def normName (p : PyStr) : PyStr := collapseSlash (stripSlash p)

theorem takeWhile_length_lt_of_mem_false (q : Char → Bool) (l : List Char) :
    (∃ x ∈ l, q x = false) → (l.takeWhile q).length < l.length := by
  induction l with
  | nil => intro hl; simp at hl
  | cons x xs ih =>
    intro hl
    by_cases hx : q x
    · rw [List.takeWhile_cons_of_pos hx]
      have hxs : ∃ z ∈ xs, q z = false := by
        rcases hl with ⟨y, hy, hqy⟩
        rcases List.mem_cons.mp hy with rfl | hmem
        · exact absurd hx (by simp [hqy])
        · exact ⟨y, hmem, hqy⟩
      simpa using Nat.succ_lt_succ (ih hxs)
    · rw [List.takeWhile_cons_of_neg (by simpa using hx)]
      simp

theorem pTail_length_lt (p : PyStr) (h : '/' ∈ p) : (pTail p).length < p.length := by
  have hx : ∃ x ∈ p.reverse, (fun c => decide (c ≠ '/')) x = false :=
    ⟨'/', by simpa using h, by simp⟩
  have hlt := takeWhile_length_lt_of_mem_false _ p.reverse hx
  simpa [pTail] using hlt

theorem pathSplit_snd (p : PyStr) : (pathSplit p).2 = pTail p := by
  unfold pathSplit
  split <;> rfl

theorem pathSplit_snd_length_lt (p : PyStr) (h : '/' ∈ p) :
    (pathSplit p).2.length < p.length := by
  rw [pathSplit_snd]
  exact pTail_length_lt p h

/-- Errors of hub.util.exceptions that the embedded operations can raise.
The extra value `nonTermination` marks inputs on which the source would loop
or recurse forever (see the definitions that produce it); no such input is
reachable from the public operations on normalized names. -/
inductive HubErr where
  | tensorAlreadyExists (name : PyStr)
  | tensorGroupAlreadyExists (name : PyStr)
  | invalidTensorGroupName (name : PyStr)
  | invalidTensorName (name : PyStr)
  | tensorDoesNotExist (name : PyStr)
  | invalidKey
  | nonTermination
deriving DecidableEq

instance exceptDecEq {ε α : Type} [DecidableEq ε] [DecidableEq α] :
    DecidableEq (Except ε α) := fun a b =>
  match a, b with
  | .ok x, .ok y =>
    if h : x = y then .isTrue (by rw [h]) else .isFalse (fun hc => h (Except.ok.inj hc))
  | .error e, .error f =>
    if h : e = f then .isTrue (by rw [h]) else .isFalse (fun hc => h (Except.error.inj hc))
  | .ok _, .error _ => .isFalse (fun hc => Except.noConfusion hc)
  | .error _, .ok _ => .isFalse (fun hc => Except.noConfusion hc)

/-- DatasetMeta: the per-commit namespace record (tensor names and group
names, '/'-delimited). -/
structure DMeta where
  tensors : List PyStr
  groups : List PyStr
deriving DecidableEq

/-- The state create_group / create_tensor operate on: the current position
of the version-control machine (commit id, whether that commit is finalized,
the current branch), the cached DatasetMeta object per commit-id key, and
version_state["full_tensors"] (the materialized tensor paths).  Commit and
branch identities are modelled as naturals drawn from `counter`. -/
structure CGState where
  commitId : Nat
  /-- commit_node.commit_time is set: the current commit is finalized -/
  committed : Bool
  counter : Nat
  branch : Nat
  /-- storage and its cache: the DatasetMeta object stored at each commit's
  dataset-meta key (get_dataset_meta_key(commit_id)) -/
  metaStore : List (Nat × DMeta)
  /-- version_state["full_tensors"] keys -/
  fullTensors : List PyStr
deriving DecidableEq

/-- storage.get_cachable(get_dataset_meta_key(key), DatasetMeta): the cached
meta object at a commit's meta key; an absent key yields a fresh empty meta.
The source hands back the cached object itself, so in-place mutation of the
returned meta is mutation of the cache (spec §9 notes exactly this for
create_group's ancestor appends). -/
def getMeta (st : CGState) (key : Nat) : DMeta :=
  match st.metaStore.find? (fun kv => kv.1 = key) with
  | some kv => kv.2
  | none => ⟨[], []⟩

/-- Writing the (mutated) cached meta object back at a commit's meta key. -/
def setMeta (st : CGState) (key : Nat) (m : DMeta) : CGState :=
  { st with metaStore := (key, m) :: st.metaStore.filter (fun kv => kv.1 ≠ key) }

/-- Modelled from the spec: `auto_checkout` (hub.util.version_control, not
under src/).  Spec §4.1: if the current commit node is finalized
(commit_time set), a new anonymous branch with a fresh uncommitted child
node is created transparently and the position moves to it; checking out
copies the current commit's metadata to the new commit's keys.  Otherwise
nothing happens. -/
def autoCheckout (st : CGState) : CGState :=
  if st.committed then
    let newId := st.counter
    let st1 := setMeta st newId (getMeta st st.commitId)
    { st1 with
      commitId := newId
      committed := false
      branch := st.counter
      counter := st.counter + 1 }
  else st

/-- A representative subset of dir(self) on a Dataset view: the attribute
names a tensor or group name may not collide with (`name in dir(self)`). -/
def dirNames : List PyStr :=
  ["create_tensor", "create_group", "create_tensor_like", "commit", "checkout",
   "log", "flush", "clear_cache", "size_approx", "delete", "meta", "tensors",
   "groups", "branch", "path", "storage", "index", "group_index", "read_only",
   "info", "token", "parent", "root", "num_samples", "version_state"].map
    String.toList

/-- The `while name:` loop of Dataset._create_group: walks from the requested
group up through its ancestors, failing if one is a materialized tensor and
otherwise appending it to the (cached, in-place mutated) group list.  Returns
the group list as mutated so far and the error, if any.  On a name whose
split head does not shrink (an all-slash name, unreachable from the
normalizing callers) the source would loop forever. -/
def createGroupLoopF (fullT : List PyStr) : Nat → List PyStr → PyStr →
    List PyStr × Option HubErr
  | 0, gs, _ => (gs, some .nonTermination)
  | fuel + 1, gs, name =>
    if name = [] then (gs, none)
    else if name ∈ fullT then (gs, some (.tensorAlreadyExists name))
    else
      let gs1 := gs ++ [name]
      let hd := (pathSplit name).1
      if hd.length < name.length then createGroupLoopF fullT fuel gs1 hd
      else (gs1, some .nonTermination)

/-- The `while name:` loop entered with `name`: the split head shrinks the
name at every iteration, so `name.length + 1` rounds always suffice; the
fuel runs out (or the in-round guard fires) only on the all-slash names on
which the source itself would loop forever. -/
def createGroupLoop (fullT : List PyStr) (gs : List PyStr) (name : PyStr) :
    List PyStr × Option HubErr :=
  createGroupLoopF fullT (name.length + 1) gs name

/-- Dataset._create_group: fetches the cached meta, validates the name, walks
the ancestor chain appending groups to the cached list in place, and only
after the loop dedupes and writes the meta key back.  The returned state is
the state after the call — on an error raised inside the loop the groups
appended so far remain in the cached meta (the write-back and maybe_flush
lines are not reached, but the cached object was already mutated). -/
def createGroupInner (st : CGState) (name : PyStr) : CGState × Except HubErr PyStr :=
  if name = [] ∨ name ∈ dirNames then (st, .error (.invalidTensorGroupName name))
  else
    match createGroupLoop st.fullTensors (getMeta st st.commitId).groups name with
    | (gs, some e) =>
      (setMeta st st.commitId { getMeta st st.commitId with groups := gs }, .error e)
    | (gs, none) =>
      (setMeta st st.commitId { getMeta st st.commitId with groups := gs.dedup }, .ok name)

/-- Dataset.create_group on the root view (a non-root view immediately
delegates to the root with the path prefixed by its group index, which
reduces to this case): normalizes the name, rejects an existing group, and
calls _create_group.  It never calls auto_checkout. -/
def createGroup (st : CGState) (name : PyStr) : CGState × Except HubErr PyStr :=
  if normName name ∈ (getMeta st st.commitId).groups then
    (st, .error (.tensorGroupAlreadyExists (normName name)))
  else createGroupInner st (normName name)

/-- Modelled from the spec: hub.util.keys.tensor_exists (not under src/) —
whether a tensor is recorded at this path for the current commit; the model
reads the commit's DatasetMeta tensor list. -/
def tensorExists (st : CGState) (name : PyStr) : Bool :=
  name ∈ (getMeta st st.commitId).tensors

/-- Dataset.create_tensor on the root view, its version-control and namespace
steps (payload creation through the chunk engine is outside this core): it
calls auto_checkout first, normalizes, checks tensor/group/name collisions,
creates the parent group chain when the name is nested, then records the
tensor in the commit's meta and in full_tensors. -/
def createTensorOp (st : CGState) (name : PyStr) : CGState × Except HubErr PyStr :=
  let st0 := autoCheckout st
  let name1 := normName name
  if tensorExists st0 name1 then (st0, .error (.tensorAlreadyExists name1))
  else if name1 ∈ (getMeta st0 st0.commitId).groups then
    (st0, .error (.tensorGroupAlreadyExists name1))
  else if name1 = [] ∨ name1 ∈ dirNames then (st0, .error (.invalidTensorName name1))
  else
    let afterGroups : CGState × Except HubErr Unit :=
      if '/' ∈ name1 then
        match createGroupInner st0 (pathSplit name1).1 with
        | (st1, .error e) => (st1, .error e)
        | (st1, .ok _) => (st1, .ok ())
      else (st0, .ok ())
    match afterGroups with
    | (st1, .error e) => (st1, .error e)
    | (st1, .ok _) =>
      let meta := getMeta st1 st1.commitId
      let st2 := setMeta st1 st1.commitId { meta with tensors := meta.tensors ++ [name1] }
      ({ st2 with fullTensors := st2.fullTensors ++ [name1] }, .ok name1)

theorem getMeta_setMeta_same (st : CGState) (k : Nat) (m : DMeta) :
    getMeta (setMeta st k m) k = m := by
  simp [getMeta, setMeta]

theorem setMeta_commitId (st : CGState) (k : Nat) (m : DMeta) :
    (setMeta st k m).commitId = st.commitId := rfl

theorem createGroupLoopF_err (fullT : List PyStr) :
    ∀ fuel gs name e, (createGroupLoopF fullT fuel gs name).2 = some e →
      (∃ t, e = .tensorAlreadyExists t) ∨ e = .nonTermination := by
  intro fuel
  induction fuel with
  | zero =>
    intro gs name e h
    simp [createGroupLoopF] at h
    exact Or.inr h.symm
  | succ n ih =>
    intro gs name e h
    by_cases h1 : name = []
    · simp [createGroupLoopF, h1] at h
    · by_cases h2 : name ∈ fullT
      · simp [createGroupLoopF, h1, h2] at h
        exact Or.inl ⟨name, h.symm⟩
      · by_cases h3 : (pathSplit name).1.length < name.length
        · simp only [createGroupLoopF, if_neg h1, if_neg h2, if_pos h3] at h
          exact ih _ _ _ h
        · simp [createGroupLoopF, h1, h2, h3] at h
          exact Or.inr h.symm

theorem createGroupLoopF_extends (fullT : List PyStr) :
    ∀ fuel gs name, ∃ extra, (createGroupLoopF fullT fuel gs name).1 = gs ++ extra := by
  intro fuel
  induction fuel with
  | zero => intro gs name; exact ⟨[], by simp [createGroupLoopF]⟩
  | succ n ih =>
    intro gs name
    by_cases h1 : name = []
    · exact ⟨[], by simp [createGroupLoopF, h1]⟩
    · by_cases h2 : name ∈ fullT
      · exact ⟨[], by simp [createGroupLoopF, h1, h2]⟩
      · by_cases h3 : (pathSplit name).1.length < name.length
        · rcases ih (gs ++ [name]) (pathSplit name).1 with ⟨extra, hex⟩
          refine ⟨[name] ++ extra, ?_⟩
          simp only [createGroupLoopF, if_neg h1, if_neg h2, if_pos h3]
          rw [hex, List.append_assoc]
        · exact ⟨[name], by simp [createGroupLoopF, h1, h2, h3]⟩

/-- A dataset positioned at a finalized commit (commit id 0, commit_time
set), with an empty namespace: the situation in which auto_checkout must
fire before any mutation. -/
def finalizedStart : CGState :=
  { commitId := 0, committed := true, counter := 1, branch := 0,
    metaStore := [(0, ⟨[], []⟩)], fullTensors := [] }

/-- Claim C1 fails on the code: create_group does not invoke auto_checkout.
From a finalized commit, create_group("g") succeeds while staying on the
finalized commit node (commit_id 0, commit_time still set) and appends "g"
to that finalized commit's cached DatasetMeta in place; create_tensor("t")
from the same state first auto-checkouts to a fresh uncommitted commit
(commit_id 1) and leaves the finalized commit's meta untouched. -/
theorem createGroup_mutates_finalized_commit :
    ((createGroup finalizedStart ['g']).2 = Except.ok ['g'] ∧
     (createGroup finalizedStart ['g']).1.commitId = 0 ∧
     (createGroup finalizedStart ['g']).1.committed = true ∧
     (getMeta (createGroup finalizedStart ['g']).1 0).groups = [['g']]) ∧
    ((createTensorOp finalizedStart ['t']).2 = Except.ok ['t'] ∧
     (createTensorOp finalizedStart ['t']).1.commitId = 1 ∧
     (createTensorOp finalizedStart ['t']).1.committed = false ∧
     (getMeta (createTensorOp finalizedStart ['t']).1 0).groups = [] ∧
     (getMeta (createTensorOp finalizedStart ['t']).1 0).tensors = []) := by decide

/-- A dataset (uncommitted head, commit id 0) whose namespace already holds
a tensor "a" and no groups. -/
def tensorAStart : CGState :=
  { commitId := 0, committed := false, counter := 1, branch := 0,
    metaStore := [(0, ⟨[['a']], []⟩)], fullTensors := [['a']] }

/-- Claim C2 fails on the code: create_group("a/b/c") on a dataset whose
namespace holds the tensor "a" raises TensorAlreadyExistsError only after
appending "a/b/c" and "a/b" to the cached DatasetMeta's group list, so the
failed call leaves the namespace state changed. -/
theorem createGroup_failed_call_leaves_partial_groups :
    (createGroup tensorAStart "a/b/c".toList).2 =
      Except.error (HubErr.tensorAlreadyExists ['a']) ∧
    (getMeta tensorAStart 0).groups = [] ∧
    (getMeta (createGroup tensorAStart "a/b/c".toList).1 0).groups =
      ["a/b/c".toList, "a/b".toList] := by decide

/-- Claim C2 amended: a create_group call that fails with
TensorGroupAlreadyExistsError or with InvalidTensorGroupNameError leaves the
state exactly as it was; but a call that fails with TensorAlreadyExistsError
during ancestor materialization has already appended group entries to the
cached DatasetMeta's group list in place (the prior groups survive as a
prefix, and the commit position, finalization flag, tensor set and the rest
of the store are untouched — the partial-application open risk of spec §9). -/
theorem createGroupLoop_err (fullT gs : List PyStr) (name : PyStr) (e : HubErr)
    (h : (createGroupLoop fullT gs name).2 = some e) :
    (∃ t, e = .tensorAlreadyExists t) ∨ e = .nonTermination :=
  createGroupLoopF_err fullT _ _ _ _ h

theorem createGroupLoop_extends (fullT gs : List PyStr) (name : PyStr) :
    ∃ extra, (createGroupLoop fullT gs name).1 = gs ++ extra :=
  createGroupLoopF_extends fullT _ _ _

theorem createGroup_error_state_characterization :
    ∀ st name,
      (∀ st2 g, createGroup st name = (st2, .error (.tensorGroupAlreadyExists g)) →
        st2 = st) ∧
      (∀ st2 g, createGroup st name = (st2, .error (.invalidTensorGroupName g)) →
        st2 = st) ∧
      (∀ st2 t, createGroup st name = (st2, .error (.tensorAlreadyExists t)) →
        ∃ extra,
          (getMeta st2 st.commitId).groups = (getMeta st st.commitId).groups ++ extra ∧
          (getMeta st2 st.commitId).tensors = (getMeta st st.commitId).tensors ∧
          st2.commitId = st.commitId ∧ st2.committed = st.committed ∧
          st2.counter = st.counter ∧ st2.branch = st.branch ∧
          st2.fullTensors = st.fullTensors) := by
  intro st name
  refine ⟨?_, ?_, ?_⟩
  · intro st2 g h
    unfold createGroup at h
    split at h
    · exact congrArg Prod.fst h |>.symm
    · unfold createGroupInner at h
      split at h
      · have := congrArg Prod.snd h
        simp at this
      · split at h
        · rename_i gs e heq
          have h2 := congrArg Prod.snd h
          simp only at h2
          have hsnd : (createGroupLoop st.fullTensors
              (getMeta st st.commitId).groups (normName name)).2 = some e := by
            rw [heq]
          rcases createGroupLoop_err _ _ _ _ hsnd with ⟨t, rfl⟩ | rfl <;> simp at h2
        · have := congrArg Prod.snd h
          simp at this
  · intro st2 g h
    unfold createGroup at h
    split at h
    · have := congrArg Prod.snd h
      simp at this
    · unfold createGroupInner at h
      split at h
      · exact congrArg Prod.fst h |>.symm
      · split at h
        · rename_i gs e heq
          have h2 := congrArg Prod.snd h
          simp only at h2
          have hsnd : (createGroupLoop st.fullTensors
              (getMeta st st.commitId).groups (normName name)).2 = some e := by
            rw [heq]
          rcases createGroupLoop_err _ _ _ _ hsnd with ⟨t, rfl⟩ | rfl <;> simp at h2
        · have := congrArg Prod.snd h
          simp at this
  · intro st2 t h
    unfold createGroup at h
    split at h
    · have := congrArg Prod.snd h
      simp at this
    · unfold createGroupInner at h
      split at h
      · have := congrArg Prod.snd h
        simp at this
      · split at h
        · rename_i gs e heq
          rcases createGroupLoop_extends st.fullTensors
            (getMeta st st.commitId).groups (normName name) with ⟨extra, hex⟩
          rw [heq] at hex
          have hst2 : st2 = setMeta st st.commitId
              { getMeta st st.commitId with groups := gs } :=
            (congrArg Prod.fst h).symm
          refine ⟨extra, ?_⟩
          subst hst2
          rw [getMeta_setMeta_same]
          exact ⟨by simpa using hex, rfl, rfl, rfl, rfl, rfl, rfl⟩
        · have := congrArg Prod.snd h
          simp at this

/-- A dataset (uncommitted head, commit id 0) that already holds the group
"g": calling create_group("g") on it fails with
TensorGroupAlreadyExistsError. -/
def groupGStart : CGState :=
  { commitId := 0, committed := false, counter := 1, branch := 0,
    metaStore := [(0, ⟨[], [['g']]⟩)], fullTensors := [] }

theorem createGroup_error_state_characterization_witness :
    (createGroup groupGStart ['g']).1 = groupGStart := by
  have h : createGroup groupGStart ['g'] =
      ((createGroup groupGStart ['g']).1,
        Except.error (HubErr.tensorGroupAlreadyExists ['g'])) := by decide
  exact (createGroup_error_state_characterization groupGStart ['g']).1
    (createGroup groupGStart ['g']).1 ['g'] h

/-- The Dataset attributes the lock-loss path can touch: the `_read_only`
flag, the storage's read-only flag, and the number of warnings surfaced to
the caller. -/
structure LockView where
  readOnly : Bool
  storageReadOnly : Bool
  warnings : Nat
deriving DecidableEq

/-- The Dataset.read_only property setter: enables or disables the storage's
read-only mode, then records the flag. -/
def setReadOnly (d : LockView) (v : Bool) : LockView :=
  if v then { d with storageReadOnly := true, readOnly := true }
  else { d with storageReadOnly := false, readOnly := false }

/-- Dataset._lock_lost_handler: sets read_only to True (through the setter)
and emits a warning. -/
def lockLostHandler (d : LockView) : LockView :=
  { setReadOnly d true with warnings := d.warnings + 1 }

/-- A Python value relevant to the lock-loss callback: the bound-method
object `self._lock_lost_handler`, or None. -/
inductive PyVal where
  | boundMethod
  | pyNone
deriving DecidableEq

/-- The callback Dataset.__init__ registers with the lock module:
`lambda: self._lock_lost_handler`.  Modelled from the spec: the lock's
background monitor invokes the registered loss-callback when ownership is
lost (§4.3); invoking this lambda evaluates the attribute lookup
`self._lock_lost_handler` and returns the bound method without calling it,
so the dataset state is unchanged. -/
def registeredLockCallback (d : LockView) : LockView × PyVal := (d, .boundMethod)

/-- Claim C3 fails on the code: the constructor registers
`lambda: self._lock_lost_handler` (the method is never called, only named),
so the monitor's invocation of the registered callback leaves read_only
false and emits no warning, while a real call to _lock_lost_handler would
set read_only (and the storage's read-only flag) and warn. -/
theorem registered_lock_callback_is_noop :
    (registeredLockCallback ⟨false, false, 0⟩).1 = ⟨false, false, 0⟩ ∧
    (registeredLockCallback ⟨false, false, 0⟩).1.readOnly = false ∧
    (registeredLockCallback ⟨false, false, 0⟩).1.warnings = 0 ∧
    lockLostHandler ⟨false, false, 0⟩ = ⟨true, true, 1⟩ := by decide

/-- The kind of base storage provider behind the cache (the constructor
tests `isinstance(base_storage, S3Provider)`). -/
inductive BaseKind where
  | s3
  | localDisk
  | inMemory
deriving DecidableEq

/-- An Index over the first axis, as the spec's §3 describes the selectors:
trivial (all elements), a single integer, a start/stop range, or an explicit
list of integers. -/
inductive Sel where
  | all
  | single (i : Nat)
  | slice (start stop : Nat)
  | explicit (l : List Nat)
deriving DecidableEq

/-- Index.is_trivial(): only the all-selector denotes every element in
original order. -/
def Sel.isTrivial : Sel → Bool
  | .all => true
  | _ => false

/-- The constructor arguments that decide locking: the read_only argument,
the index argument (`none` models Python None), the kind of base storage,
and the storage's prior read-only flag. -/
structure InitArgs where
  readOnly : Bool
  index : Option Sel
  base : BaseKind
  storageReadOnly : Bool
deriving DecidableEq

/-- Whether another machine currently holds the lock marker at the base
storage location. -/
inductive LockOutcome where
  | free
  | heldByOther
deriving DecidableEq

/-- The lock-related exception the constructor guards against. -/
inductive InitErr where
  | lockedException
deriving DecidableEq

/-- Modelled from the spec: hub.core.lock.lock (not under src/) — attempts
to atomically claim the marker at the location; fails fast with
LockedException when a different identity holds it and it has not expired
(§4.3). -/
def lockCall (o : LockOutcome) : Except InitErr Unit :=
  match o with
  | .free => .ok ()
  | .heldByOther => .error .lockedException

/-- What Dataset.__init__ establishes on the attributes the lock prologue
touches. -/
structure InitResult where
  readOnly : Bool
  storageReadOnly : Bool
  warned : Bool
  lockAttempted : Bool
  index : Sel
deriving DecidableEq

/-- The locking prologue of Dataset.__init__: the lock is attempted exactly
when `not read_only and index is None and isinstance(base_storage,
S3Provider)`; a LockedException is caught and downgrades the dataset to
read-only (through the property setter, which also flips the storage's
read-only flag) with a warning; `self.index = index or Index()`. -/
def datasetInit (a : InitArgs) (o : LockOutcome) : Except InitErr InitResult :=
  if a.readOnly = false ∧ a.index = none ∧ a.base = .s3 then
    match lockCall o with
    | .ok _ =>
      .ok { readOnly := a.readOnly, storageReadOnly := a.storageReadOnly,
            warned := false, lockAttempted := true, index := a.index.getD .all }
    | .error .lockedException =>
      .ok { readOnly := true, storageReadOnly := true,
            warned := true, lockAttempted := true, index := a.index.getD .all }
  else
    .ok { readOnly := a.readOnly, storageReadOnly := a.storageReadOnly,
          warned := false, lockAttempted := false, index := a.index.getD .all }

/-- Whether the constructor attempted to acquire the distributed lock. -/
def initLockAttempted (a : InitArgs) (o : LockOutcome) : Bool :=
  match datasetInit a o with
  | .ok r => r.lockAttempted
  | .error _ => false

/-- Whether the index argument describes the whole dataset with a trivial
index: Python None (which the constructor replaces by a trivial Index()), or
an explicitly passed trivial index. -/
def trivialWholeIndex : Option Sel → Bool
  | none => true
  | some s => s.isTrivial

/-- Claim C4 fails on the code: passing an explicit but trivial Index() to
the constructor of a writable S3-backed dataset attempts no lock — the test
is `index is None`, not index triviality. -/
theorem lock_skipped_for_explicit_trivial_index :
    (InitArgs.mk false (some Sel.all) BaseKind.s3 false).readOnly = false ∧
    (InitArgs.mk false (some Sel.all) BaseKind.s3 false).base = BaseKind.s3 ∧
    trivialWholeIndex (InitArgs.mk false (some Sel.all) BaseKind.s3 false).index = true ∧
    initLockAttempted (InitArgs.mk false (some Sel.all) BaseKind.s3 false) LockOutcome.free
      = false := by decide

/-- Claim C4 amended: the constructor attempts the lock exactly when opening
for write (read_only false) with no index argument (index is None — the
whole-dataset open; every view passes an explicit index) on S3 base storage;
in particular read-only opens, views with a non-trivial index, and even
opens handed an explicit trivial index never attempt to lock. -/
theorem lock_attempt_iff_write_noindex_s3 :
    ∀ a o, initLockAttempted a o = true ↔
      (a.readOnly = false ∧ a.index = none ∧ a.base = BaseKind.s3) := by
  intro a o
  rcases a with ⟨ro, idx, base, sro⟩
  constructor
  · intro h
    by_cases hc : ro = false ∧ idx = none ∧ base = BaseKind.s3
    · exact hc
    · exfalso
      cases o <;> simp [initLockAttempted, datasetInit, lockCall, hc] at h
  · intro hc
    simp only at hc
    obtain ⟨rfl, rfl, rfl⟩ := hc
    cases o <;> simp [initLockAttempted, datasetInit, lockCall]

theorem lock_attempt_iff_write_noindex_s3_witness :
    initLockAttempted (InitArgs.mk false none BaseKind.s3 false) LockOutcome.free
      = true :=
  (lock_attempt_iff_write_noindex_s3 (InitArgs.mk false none BaseKind.s3 false)
    LockOutcome.free).mpr (by decide)

/-- Claim C5: when the lock is attempted and acquisition fails with
LockedException, the constructor does not raise — it catches the exception,
downgrades the dataset (and its storage) to read-only, warns, and completes
construction normally. -/
theorem lock_failure_downgrades_readonly :
    ∀ a : InitArgs, a.readOnly = false → a.index = none → a.base = BaseKind.s3 →
      datasetInit a .heldByOther =
        .ok { readOnly := true, storageReadOnly := true, warned := true,
              lockAttempted := true, index := Sel.all } := by
  intro a h1 h2 h3
  simp [datasetInit, lockCall, h1, h2, h3]

theorem lock_failure_downgrades_readonly_witness :
    datasetInit (InitArgs.mk false none BaseKind.s3 false) .heldByOther =
      .ok { readOnly := true, storageReadOnly := true, warned := true,
            lockAttempted := true, index := Sel.all } :=
  lock_failure_downgrades_readonly (InitArgs.mk false none BaseKind.s3 false)
    rfl rfl rfl

/-- Modelled from the spec: the number of samples a first-axis selector
exposes on a tensor of raw length n — §4.5 requires the visible element
count to be bound by the index (trivial: all n; integer: one; range:
the clamped Python slice length; list: its size). -/
def Sel.visibleLength : Sel → Nat → Nat
  | .all, n => n
  | .single _, _ => 1
  | .slice a b, n => min b n - min a n
  | .explicit l, _ => l.length

/-- Python `min(xs, default=0)`. -/
def minD : List Nat → Nat
  | [] => 0
  | x :: xs => xs.foldl min x

theorem foldl_min_le_init (xs : List Nat) : ∀ a : Nat, xs.foldl min a ≤ a := by
  induction xs with
  | nil => intro a; simp
  | cons x xs ih =>
    intro a
    calc (x :: xs).foldl min a = xs.foldl min (min a x) := rfl
    _ ≤ min a x := ih (min a x)
    _ ≤ a := Nat.min_le_left a x

theorem foldl_min_le_mem (xs : List Nat) :
    ∀ a y : Nat, y ∈ xs → xs.foldl min a ≤ y := by
  induction xs with
  | nil => intro a y hy; simp at hy
  | cons x xs ih =>
    intro a y hy
    rcases List.mem_cons.mp hy with rfl | hmem
    · calc (y :: xs).foldl min a = xs.foldl min (min a y) := rfl
      _ ≤ min a y := foldl_min_le_init xs (min a y)
      _ ≤ y := Nat.min_le_right a y
    · exact ih (min a x) y hmem

theorem foldl_min_mem (xs : List Nat) :
    ∀ a : Nat, xs.foldl min a = a ∨ xs.foldl min a ∈ xs := by
  induction xs with
  | nil => intro a; simp
  | cons x xs ih =>
    intro a
    rcases ih (min a x) with h | h
    · rcases min_choice a x with hm | hm
      · left
        calc (x :: xs).foldl min a = xs.foldl min (min a x) := rfl
        _ = min a x := h
        _ = a := hm
      · right
        rw [show (x :: xs).foldl min a = xs.foldl min (min a x) from rfl, h, hm]
        exact List.mem_cons_self x xs
    · right
      exact List.mem_cons_of_mem x h

theorem minD_le_mem (l : List Nat) (y : Nat) (hy : y ∈ l) : minD l ≤ y := by
  cases l with
  | nil => simp at hy
  | cons x xs =>
    rcases List.mem_cons.mp hy with rfl | hmem
    · exact foldl_min_le_init xs y
    · exact foldl_min_le_mem xs x y hmem

theorem minD_mem (l : List Nat) (h : l ≠ []) : minD l ∈ l := by
  cases l with
  | nil => exact absurd rfl h
  | cons x xs =>
    rcases foldl_min_mem xs x with hm | hm
    · rw [show minD (x :: xs) = xs.foldl min x from rfl, hm]
      exact List.mem_cons_self x xs
    · exact List.mem_cons_of_mem x hm

/-- A Dataset view as far as lengths are concerned:
version_state["full_tensors"] (each tensor's path with its raw, unindexed
length), the view's group index, and the view's index. -/
structure ViewState where
  fullTensors : List (PyStr × Nat)
  groupIndex : PyStr
  index : Sel

/-- Dataset.num_samples: the minimum raw length over all of full_tensors —
the docstring says it ignores any applied indexing (and it ignores the
group index too), default 0. -/
def numSamples (v : ViewState) : Nat := minD (v.fullTensors.map Prod.snd)

/-- Dataset._all_tensors_filtered: the tensors belonging to this group,
including those inside sub-groups (`not self.group_index or
t.startswith(self.group_index + "/")`). -/
def tensorsFiltered (v : ViewState) : List (PyStr × Nat) :=
  v.fullTensors.filter
    (fun t => v.groupIndex.isEmpty || (v.groupIndex ++ ['/']).isPrefixOf t.1)

/-- Dataset.__len__: the minimum, default 0, over the view's tensors —
obtained from the `tensors` property, which returns the *sliced* tensors
(`full_tensors[...][self.index]`), so each length is the index-applied
length (Tensor.__len__ of a sliced handle; see Sel.visibleLength). -/
def dsLen (v : ViewState) : Nat :=
  minD ((tensorsFiltered v).map (fun t => Sel.visibleLength v.index t.2))

/-- Dataset.__iter__: `for i in range(len(self)): yield self[i]` — the
sequence of row indices visited. -/
def iterIndices (v : ViewState) : List Nat := List.range (dsLen v)

/-- A root view over one tensor "t" of raw length 5, restricted to rows
2..3 by a slice index. -/
def slicedView : ViewState := ⟨[(['t'], 5)], [], Sel.slice 2 4⟩

/-- Claim C6 fails on the code: __len__ is not oblivious to the applied
index — it measures the index-applied (sliced) tensors, so a view of rows
2..3 of a length-5 tensor has len 2, not the raw minimum 5 (which is what
num_samples returns). -/
theorem dsLen_applies_index_counterexample :
    dsLen slicedView = 2 ∧ numSamples slicedView = 5 ∧
    dsLen slicedView ≠ numSamples slicedView := by decide

/-- Claim C6 amended: len(view) is the minimum over the tensors the view
exposes of their *index-applied* lengths (default 0 with no tensors); on a
root view with trivial index it coincides with num_samples, the raw
index-oblivious minimum; and iteration visits exactly range(len(self)) —
len(self) elements, the index-bound visible count. -/
theorem dsLen_indexed_minimum_and_iteration :
    ∀ v : ViewState,
      (iterIndices v).length = dsLen v ∧
      (v.index = Sel.all → v.groupIndex = [] → dsLen v = numSamples v) ∧
      (∀ t ∈ tensorsFiltered v, dsLen v ≤ Sel.visibleLength v.index t.2) ∧
      (tensorsFiltered v ≠ [] →
        ∃ t ∈ tensorsFiltered v, dsLen v = Sel.visibleLength v.index t.2) := by
  intro v
  refine ⟨by simp [iterIndices], ?_, ?_, ?_⟩
  · intro h1 h2
    rcases v with ⟨ft, gi, idx⟩
    simp only at h1 h2
    subst h1
    subst h2
    simp [dsLen, numSamples, tensorsFiltered, Sel.visibleLength]
  · intro t ht
    exact minD_le_mem _ _ (List.mem_map_of_mem _ ht)
  · intro hne
    have hmapne : ((tensorsFiltered v).map
        (fun t => Sel.visibleLength v.index t.2)) ≠ [] := by
      simpa using hne
    have hm := minD_mem _ hmapne
    rcases List.mem_map.mp hm with ⟨t, ht, heq⟩
    exact ⟨t, ht, heq.symm⟩

/-- A root view over one tensor "t" of raw length 5 with the trivial
index. -/
def wholeView : ViewState := ⟨[(['t'], 5)], [], Sel.all⟩

theorem dsLen_indexed_minimum_and_iteration_witness :
    dsLen wholeView = numSamples wholeView :=
  (dsLen_indexed_minimum_and_iteration wholeView).2.1 rfl rfl

/-- The attributes of a Dataset that __getstate__ reads: its path, flags,
index, group path, and (as opaque references) the storage, token and
version_state it shares. -/
structure DsRecord where
  path : PyStr
  readOnly : Bool
  index : Sel
  groupIndex : PyStr
  publicFlag : Bool
  storageRef : Nat
  token : Option PyStr
  verbose : Bool
  versionStateRef : Nat
deriving DecidableEq

/-- The dict __getstate__ returns, one field per key: path, _read_only,
index, group_index, public, storage, _token, verbose, version_state. -/
structure PickledState where
  path : PyStr
  readOnly : Bool
  index : Sel
  groupIndex : PyStr
  publicFlag : Bool
  storageRef : Nat
  token : Option PyStr
  verbose : Bool
  versionStateRef : Nat
deriving DecidableEq

/-- The error __getstate__ raises for in-memory datasets. -/
inductive PickleErr where
  | memoryDatasetCanNotBePickled
deriving DecidableEq

/-- Dataset.__getstate__: raises MemoryDatasetCanNotBePickledError when the
path starts with "mem://"; otherwise returns the minimal record of the nine
attributes above. -/
def getstateDs (d : DsRecord) : Except PickleErr PickledState :=
  if ("mem://".toList).isPrefixOf d.path then .error .memoryDatasetCanNotBePickled
  else .ok ⟨d.path, d.readOnly, d.index, d.groupIndex, d.publicFlag,
            d.storageRef, d.token, d.verbose, d.versionStateRef⟩

/-- Claim C8: pickling fails with MemoryDatasetCanNotBePickledError exactly
for mem:// paths, and otherwise returns exactly the minimal record of path,
read-only flag, index, group path, public, storage, token, verbose and
version_state. -/
theorem getstate_memory_fails_else_minimal_record :
    ∀ d : DsRecord,
      (("mem://".toList).isPrefixOf d.path = true →
        getstateDs d = .error .memoryDatasetCanNotBePickled) ∧
      (("mem://".toList).isPrefixOf d.path = false →
        getstateDs d = .ok ⟨d.path, d.readOnly, d.index, d.groupIndex,
          d.publicFlag, d.storageRef, d.token, d.verbose, d.versionStateRef⟩) := by
  intro d
  constructor
  · intro h
    unfold getstateDs
    rw [if_pos h]
  · intro h
    unfold getstateDs
    rw [if_neg (fun hc => by rw [h] at hc; exact Bool.noConfusion hc)]

/-- An in-memory dataset record and a local one, for exercising both
branches of __getstate__. -/
def memDs : DsRecord :=
  ⟨"mem://x".toList, false, Sel.all, [], true, 0, none, true, 0⟩

def localDs : DsRecord :=
  ⟨"/data/ds".toList, false, Sel.all, [], true, 0, none, true, 0⟩

theorem getstate_memory_fails_else_minimal_record_witness :
    getstateDs memDs = .error .memoryDatasetCanNotBePickled ∧
    getstateDs localDs = .ok ⟨"/data/ds".toList, false, Sel.all, [], true, 0,
      none, true, 0⟩ :=
  ⟨(getstate_memory_fails_else_minimal_record memDs).1 (by decide),
   (getstate_memory_fails_else_minimal_record localDs).2 (by decide)⟩

/-- A tensor's chunk engine as this core sees it: num_chunks and
min_chunk_size. -/
structure ChunkEngineInfo where
  numChunks : Nat
  minChunkSize : Nat
deriving DecidableEq

/-- The state Dataset.delete touches: the chunk engines of full_tensors,
the storage's keys, and whether the lock marker is held. -/
structure DelState where
  engines : List ChunkEngineInfo
  keys : List (PyStr × Nat)
  locked : Bool
deriving DecidableEq

/-- Dataset.size_approx: sum over the tensors' chunk engines of
num_chunks * min_chunk_size. -/
def sizeApprox (d : DelState) : Nat :=
  (d.engines.map (fun c => c.numChunks * c.minChunkSize)).sum

/-- hub.constants.DELETE_SAFETY_SIZE (not under src/): the delete docstring
says datasets larger than 1 GB need large_ok=True. -/
def DELETE_SAFETY_SIZE : Nat := 2 ^ 30

/-- Dataset.delete: without large_ok, a dataset whose size_approx exceeds
the safety threshold is only logged about and the method returns; otherwise
the lock is released (unlock) and the storage cleared. -/
def deleteDs (d : DelState) (largeOk : Bool) : DelState :=
  if largeOk = false ∧ sizeApprox d > DELETE_SAFETY_SIZE then d
  else { d with locked := false, keys := [] }

/-- Claim C9: for a dataset over the delete-safety threshold, delete with
large_ok=False mutates nothing — keys and lock state are exactly as
before. -/
theorem delete_large_without_flag_is_noop :
    ∀ d : DelState, sizeApprox d > DELETE_SAFETY_SIZE →
      deleteDs d false = d ∧ (deleteDs d false).keys = d.keys ∧
      (deleteDs d false).locked = d.locked := by
  intro d h
  have : deleteDs d false = d := by simp [deleteDs, h]
  exact ⟨this, by rw [this], by rw [this]⟩

/-- A dataset of approximate size 2^31 bytes (one tensor, 2^21 chunks of
2^10 bytes), locked, with one storage key. -/
def bigDs : DelState := ⟨[⟨2 ^ 21, 2 ^ 10⟩], [(['k'], 7)], true⟩

theorem delete_large_without_flag_is_noop_witness :
    deleteDs bigDs false = bigDs ∧ (deleteDs bigDs false).keys = bigDs.keys ∧
    (deleteDs bigDs false).locked = bigDs.locked :=
  delete_large_without_flag_is_noop bigDs (by decide)

/-- Modelled from the spec: CacheStorage (§3, §4.2) — a key→value mapping
with an in-memory tier over a base tier, a dirty-key set, and the autoflush
flag dataset.py toggles.  Lookups read the most recent entry (lists are
used as association stores, most recent first). -/
structure CacheState where
  cache : List (PyStr × Nat)
  base : List (PyStr × Nat)
  dirty : List PyStr
  autoflush : Bool
deriving DecidableEq

/-- The value stored for a key: the most recent entry wins. -/
def lookupKV (l : List (PyStr × Nat)) (k : PyStr) : Option Nat :=
  match l.find? (fun kv => kv.1 == k) with
  | some kv => some kv.2
  | none => none

/-- Modelled from the spec: CacheStorage.flush — propagates every dirty key
to the base tier and clears dirty status (§4.2). -/
def cacheFlush (s : CacheState) : CacheState :=
  { s with
    base := (s.dirty.filterMap
      (fun k => (lookupKV s.cache k).map (fun v => (k, v)))) ++ s.base,
    dirty := [] }

/-- Modelled from the spec: a CacheStorage write — stores in the memory
tier, marks the key dirty, and propagates synchronously exactly when
autoflush is on (§3). -/
def cacheSet (s : CacheState) (k : PyStr) (v : Nat) : CacheState :=
  let s1 : CacheState := { s with cache := (k, v) :: s.cache, dirty := k :: s.dirty }
  if s1.autoflush then cacheFlush s1 else s1

/-- Dataset.__enter__: `self.storage.autoflush = False`. -/
def dsEnter (s : CacheState) : CacheState := { s with autoflush := false }

/-- Dataset.__exit__: `self.storage.autoflush = True` (unconditionally),
then `self.flush()` which is `self.storage.flush()`. -/
def dsExit (s : CacheState) : CacheState := cacheFlush { s with autoflush := true }

/-- A block body performing a sequence of writes through the cache. -/
def runWrites (s : CacheState) (ws : List (PyStr × Nat)) : CacheState :=
  ws.foldl (fun s2 kv => cacheSet s2 kv.1 kv.2) s

/-- The last value a write sequence assigns to a key, if any. -/
def lastWrite : List (PyStr × Nat) → PyStr → Option Nat
  | [], _ => none
  | kv :: ws, k =>
    match lastWrite ws k with
    | some v => some v
    | none => if kv.1 = k then some kv.2 else none

theorem lookupKV_cons (a : PyStr) (b : Nat) (l : List (PyStr × Nat)) (k : PyStr) :
    lookupKV ((a, b) :: l) k = if a = k then some b else lookupKV l k := by
  by_cases h : a = k
  · simp [lookupKV, List.find?, h]
  · simp only [lookupKV, List.find?]
    have : ((a, b).1 == k) = false := by simpa using h
    rw [this]
    simp [h]

theorem lookupKV_flushList (dirty : List PyStr) :
    ∀ (cache : List (PyStr × Nat)) (rest : List (PyStr × Nat)) (k : PyStr) (v : Nat),
      k ∈ dirty → lookupKV cache k = some v →
      lookupKV ((dirty.filterMap
        (fun k2 => (lookupKV cache k2).map (fun w => (k2, w)))) ++ rest) k = some v := by
  induction dirty with
  | nil => intro cache rest k v hk; simp at hk
  | cons d ds ih =>
    intro cache rest k v hk hv
    by_cases hdk : d = k
    · subst hdk
      rw [List.filterMap_cons, hv]
      simp [lookupKV_cons, Option.map]
    · have hk2 : k ∈ ds := by
        rcases List.mem_cons.mp hk with rfl | hmem
        · exact absurd rfl hdk
        · exact hmem
      cases hcd : lookupKV cache d with
      | none =>
        simp only [List.filterMap_cons, hcd, Option.map]
        exact ih cache rest k v hk2 hv
      | some w =>
        simp only [List.filterMap_cons, hcd, Option.map]
        rw [List.cons_append, lookupKV_cons, if_neg hdk]
        exact ih cache rest k v hk2 hv

theorem cacheSet_of_autoflush_false (s : CacheState) (k : PyStr) (v : Nat)
    (h : s.autoflush = false) :
    cacheSet s k v =
      { cache := (k, v) :: s.cache, base := s.base, dirty := k :: s.dirty,
        autoflush := false } := by
  simp [cacheSet, h]

theorem runWrites_of_autoflush_false :
    ∀ (ws : List (PyStr × Nat)) (s : CacheState), s.autoflush = false →
      (runWrites s ws).autoflush = false ∧
      (∀ k v, lastWrite ws k = some v →
        lookupKV (runWrites s ws).cache k = some v ∧ k ∈ (runWrites s ws).dirty) ∧
      (∀ k, lastWrite ws k = none →
        lookupKV (runWrites s ws).cache k = lookupKV s.cache k ∧
        (k ∈ s.dirty → k ∈ (runWrites s ws).dirty)) := by
  intro ws
  induction ws with
  | nil =>
    intro s h
    refine ⟨h, ?_, ?_⟩
    · intro k v hkv; simp [lastWrite] at hkv
    · intro k _; exact ⟨rfl, fun hm => hm⟩
  | cons w ws ih =>
    intro s h
    have hstep : runWrites s (w :: ws) =
        runWrites { cache := (w.1, w.2) :: s.cache, base := s.base,
                    dirty := w.1 :: s.dirty, autoflush := false } ws := by
      show runWrites (cacheSet s w.1 w.2) ws =
        runWrites { cache := (w.1, w.2) :: s.cache, base := s.base,
                    dirty := w.1 :: s.dirty, autoflush := false } ws
      rw [cacheSet_of_autoflush_false s w.1 w.2 h]
    rcases ih { cache := (w.1, w.2) :: s.cache, base := s.base,
                dirty := w.1 :: s.dirty, autoflush := false } rfl with ⟨iha, ihb, ihc⟩
    refine ⟨by rw [hstep]; exact iha, ?_, ?_⟩
    · intro k v hkv
      rw [hstep]
      cases hws : lastWrite ws k with
      | some v2 =>
        have hv2 : lastWrite ws k = some v := by
          rw [hws]
          have := hkv
          simp only [lastWrite, hws] at this
          exact this
        exact ihb k v hv2
      | none =>
        have hwk : w.1 = k ∧ w.2 = v := by
          have := hkv
          simp only [lastWrite, hws] at this
          by_cases hc : w.1 = k
          · rw [if_pos hc] at this
            exact ⟨hc, Option.some.inj this⟩
          · rw [if_neg hc] at this
            exact absurd this (by simp)
        rcases ihc k hws with ⟨hca, hcb⟩
        constructor
        · rw [hca, lookupKV_cons, if_pos hwk.1, hwk.2]
        · exact hcb (by rw [hwk.1]; exact List.mem_cons_self k s.dirty)
    · intro k hkn
      have hws : lastWrite ws k = none ∧ w.1 ≠ k := by
        cases hws2 : lastWrite ws k with
        | some v2 => simp [lastWrite, hws2] at hkn
        | none =>
          refine ⟨rfl, ?_⟩
          intro hc
          simp [lastWrite, hws2, hc] at hkn
      rcases ihc k hws.1 with ⟨hca, hcb⟩
      rw [hstep]
      constructor
      · rw [hca, lookupKV_cons, if_neg hws.2]
      · intro hm
        exact hcb (List.mem_cons_of_mem w.1 hm)

/-- Claim C10: entering the context manager turns autoflush off; exiting
turns it on unconditionally and flushes, so every key written inside the
block reaches the base tier with its last written value, and no dirty key
remains. -/
theorem context_manager_flushes_on_exit :
    ∀ (s : CacheState) (ws : List (PyStr × Nat)),
      (dsEnter s).autoflush = false ∧
      (∀ s2 : CacheState, (dsExit s2).autoflush = true) ∧
      (dsExit (runWrites (dsEnter s) ws)).dirty = [] ∧
      (∀ k v, lastWrite ws k = some v →
        lookupKV (dsExit (runWrites (dsEnter s) ws)).base k = some v) := by
  intro s ws
  refine ⟨rfl, fun s2 => rfl, rfl, ?_⟩
  intro k v hkv
  rcases runWrites_of_autoflush_false ws (dsEnter s) rfl with ⟨_, hb, _⟩
  rcases hb k v hkv with ⟨hcache, hdirty⟩
  show lookupKV (cacheFlush
    { runWrites (dsEnter s) ws with autoflush := true }).base k = some v
  unfold cacheFlush
  exact lookupKV_flushList _ _ _ k v hdirty hcache

theorem context_manager_flushes_on_exit_witness :
    lookupKV (dsExit (runWrites (dsEnter ⟨[], [], [], true⟩)
      [(['k'], 41), (['k'], 42)])).base ['k'] = some 42 :=
  (context_manager_flushes_on_exit ⟨[], [], [], true⟩
    [(['k'], 41), (['k'], 42)]).2.2.2 ['k'] 42 (by decide)

/-- What dataset[name] can produce for a string name: a tensor handle (its
path, with the view's index applied to it) or a narrower Dataset view (same
storage and version_state, deeper group index, same index). -/
inductive GetResult where
  | tensor (path : PyStr) (index : Sel)
  | view (groupIndex : PyStr) (index : Sel)
deriving DecidableEq

/-- The namespace state __getitem__ reads: the lazily materialized
version_state["full_tensors"] and the cached meta's groups, beside the
authoritative tensor and group lists persisted in storage for the current
commit. -/
structure NsState where
  fullTensors : List PyStr
  metaGroups : List PyStr
  storedTensors : List PyStr
  storedGroups : List PyStr
deriving DecidableEq

/-- Modelled from the spec: load_meta (hub.util.version_control, not under
src/) — reloads full_tensors and the DatasetMeta for the current commit
from storage (§4.1 checkout reloads `full_tensors` and metadata). -/
def loadMeta (st : NsState) : NsState :=
  { st with fullTensors := st.storedTensors, metaGroups := st.storedGroups }

/-- Dataset._get_tensor_from_root: looks the path up in full_tensors and,
on a miss, reloads the meta once and looks again. -/
def getTensorFromRoot (st : NsState) (name : PyStr) : NsState × Bool :=
  if name ∈ st.fullTensors then (st, true)
  else (loadMeta st, decide (name ∈ (loadMeta st).fullTensors))

/-- Dataset._has_group_in_root: checks the cached meta's groups and, on a
miss, reloads the meta and checks again. -/
def hasGroupInRoot (st : NsState) (name : PyStr) : NsState × Bool :=
  if name ∈ st.metaGroups then (st, true)
  else (loadMeta st, decide (name ∈ (loadMeta st).metaGroups))

/-- Dataset.__getitem__ for a string key, with the recursion depth bounded
by a fuel parameter (each recursive call uses a strictly shorter name, so
`item.length + 1` rounds always suffice; fuel exhaustion and the
split-head guard model the RecursionError the source runs into on all-slash
names).  Steps, in the source's order: (a) a tensor at
group_index/item — returned with the dataset's index applied unchanged;
(b) a group at that path — a narrower view with the joined group index and
the same index; (c) a separated name — `self[dirname][basename]`, where
subscripting a Tensor result with a string fails (Modelled from the spec:
§3, an Index selector is an integer, range or list, never a string);
otherwise TensorDoesNotExistError. -/
def getitemF : Nat → NsState → PyStr → Sel → PyStr → NsState × Except HubErr GetResult
  | 0, st, _, _, _ => (st, .error .nonTermination)
  | fuel + 1, st, gi, idx, item =>
    if ((getTensorFromRoot st (pathJoin gi item)).2) then
      ((getTensorFromRoot st (pathJoin gi item)).1,
        .ok (.tensor (pathJoin gi item) idx))
    else
      if ((hasGroupInRoot (getTensorFromRoot st (pathJoin gi item)).1 (pathJoin gi item)).2) then
        ((hasGroupInRoot (getTensorFromRoot st (pathJoin gi item)).1 (pathJoin gi item)).1,
          .ok (.view (pathJoin gi item) idx))
      else
        if '/' ∈ item then
          if (pathSplit item).1.length < item.length then
            match getitemF fuel
                (hasGroupInRoot (getTensorFromRoot st (pathJoin gi item)).1 (pathJoin gi item)).1
                gi idx (pathSplit item).1 with
            | (st3, .error e) => (st3, .error e)
            | (st3, .ok (.view gi2 idx2)) => getitemF fuel st3 gi2 idx2 (pathSplit item).2
            | (st3, .ok (.tensor _ _)) => (st3, .error .invalidKey)
          else
            ((hasGroupInRoot (getTensorFromRoot st (pathJoin gi item)).1 (pathJoin gi item)).1,
             .error .nonTermination)
        else
          ((hasGroupInRoot (getTensorFromRoot st (pathJoin gi item)).1 (pathJoin gi item)).1,
           .error (.tensorDoesNotExist item))

/-- Dataset.__getitem__ for a string key (see getitemF). -/
def getitemStr (st : NsState) (gi : PyStr) (idx : Sel) (item : PyStr) :
    NsState × Except HubErr GetResult :=
  getitemF (item.length + 1) st gi idx item

/-- The resolution procedure as claim C7 states it, over the authoritative
namespace: (a) a tensor at group_index/name, returned with the current
index applied and unmodified; (b) a group at that path, returned as a
narrower view; (c) a name with a separator is split and resolved
recursively; otherwise TensorDoesNotExistError.  Stated with the same fuel
discipline as the code. -/
def specResolveF : Nat → List PyStr → List PyStr → PyStr → Sel → PyStr →
    Except HubErr GetResult
  | 0, _, _, _, _, _ => .error .nonTermination
  | fuel + 1, tensors, groups, gi, idx, item =>
    if pathJoin gi item ∈ tensors then .ok (.tensor (pathJoin gi item) idx)
    else if pathJoin gi item ∈ groups then .ok (.view (pathJoin gi item) idx)
    else if '/' ∈ item then
      if (pathSplit item).1.length < item.length then
        match specResolveF fuel tensors groups gi idx (pathSplit item).1 with
        | .error e => .error e
        | .ok (.view gi2 idx2) => specResolveF fuel tensors groups gi2 idx2 (pathSplit item).2
        | .ok (.tensor _ _) => .error .invalidKey
      else .error .nonTermination
    else .error (.tensorDoesNotExist item)

/-- The resolution procedure of claim C7 (see specResolveF). -/
def specResolve (tensors groups : List PyStr) (gi : PyStr) (idx : Sel)
    (item : PyStr) : Except HubErr GetResult :=
  specResolveF (item.length + 1) tensors groups gi idx item

/-- The consistency the lazy caches keep: every materialized tensor and
every cached group is present in the authoritative stored namespace. -/
def nsInv (st : NsState) : Prop :=
  st.fullTensors ⊆ st.storedTensors ∧ st.metaGroups ⊆ st.storedGroups

theorem getTensorFromRoot_snd (st : NsState) (name : PyStr) (h : nsInv st) :
    (getTensorFromRoot st name).2 = decide (name ∈ st.storedTensors) := by
  unfold getTensorFromRoot
  by_cases hm : name ∈ st.fullTensors
  · rw [if_pos hm]
    have : name ∈ st.storedTensors := h.1 hm
    simp [this]
  · rw [if_neg hm]
    rfl

theorem getTensorFromRoot_state (st : NsState) (name : PyStr) :
    (getTensorFromRoot st name).1.storedTensors = st.storedTensors ∧
    (getTensorFromRoot st name).1.storedGroups = st.storedGroups := by
  unfold getTensorFromRoot
  by_cases hm : name ∈ st.fullTensors
  · rw [if_pos hm]; exact ⟨rfl, rfl⟩
  · rw [if_neg hm]; exact ⟨rfl, rfl⟩

theorem getTensorFromRoot_inv (st : NsState) (name : PyStr) (h : nsInv st) :
    nsInv (getTensorFromRoot st name).1 := by
  unfold getTensorFromRoot
  by_cases hm : name ∈ st.fullTensors
  · rw [if_pos hm]; exact h
  · rw [if_neg hm]
    exact ⟨fun x hx => hx, fun x hx => hx⟩

theorem hasGroupInRoot_snd (st : NsState) (name : PyStr) (h : nsInv st) :
    (hasGroupInRoot st name).2 = decide (name ∈ st.storedGroups) := by
  unfold hasGroupInRoot
  by_cases hm : name ∈ st.metaGroups
  · rw [if_pos hm]
    have : name ∈ st.storedGroups := h.2 hm
    simp [this]
  · rw [if_neg hm]
    rfl

theorem hasGroupInRoot_state (st : NsState) (name : PyStr) :
    (hasGroupInRoot st name).1.storedTensors = st.storedTensors ∧
    (hasGroupInRoot st name).1.storedGroups = st.storedGroups := by
  unfold hasGroupInRoot
  by_cases hm : name ∈ st.metaGroups
  · rw [if_pos hm]; exact ⟨rfl, rfl⟩
  · rw [if_neg hm]; exact ⟨rfl, rfl⟩

theorem hasGroupInRoot_inv (st : NsState) (name : PyStr) (h : nsInv st) :
    nsInv (hasGroupInRoot st name).1 := by
  unfold hasGroupInRoot
  by_cases hm : name ∈ st.metaGroups
  · rw [if_pos hm]; exact h
  · rw [if_neg hm]
    exact ⟨fun x hx => hx, fun x hx => hx⟩

theorem getitemF_matches_spec :
    ∀ (fuel : Nat) (st : NsState) (gi : PyStr) (idx : Sel) (item : PyStr),
      item.length < fuel → nsInv st →
      ((getitemF fuel st gi idx item).1.storedTensors = st.storedTensors ∧
       (getitemF fuel st gi idx item).1.storedGroups = st.storedGroups ∧
       nsInv (getitemF fuel st gi idx item).1) ∧
      (getitemF fuel st gi idx item).2 =
        specResolveF fuel st.storedTensors st.storedGroups gi idx item := by
  intro fuel
  induction fuel with
  | zero => intro st gi idx item hlen _; exact absurd hlen (Nat.not_lt_zero _)
  | succ fuel ih =>
    intro st gi idx item hlen hinv
    have hT2 := getTensorFromRoot_snd st (pathJoin gi item) hinv
    have hTst := getTensorFromRoot_state st (pathJoin gi item)
    have hTinv := getTensorFromRoot_inv st (pathJoin gi item) hinv
    have hG2 := hasGroupInRoot_snd (getTensorFromRoot st (pathJoin gi item)).1
      (pathJoin gi item) hTinv
    have hGst := hasGroupInRoot_state (getTensorFromRoot st (pathJoin gi item)).1
      (pathJoin gi item)
    have hGinv := hasGroupInRoot_inv (getTensorFromRoot st (pathJoin gi item)).1
      (pathJoin gi item) hTinv
    rw [hTst.2] at hG2
    by_cases hT : pathJoin gi item ∈ st.storedTensors
    · have hb : (getTensorFromRoot st (pathJoin gi item)).2 = true := by
        rw [hT2]; simpa using hT
      rw [getitemF, specResolveF, hb, if_pos rfl, if_pos hT]
      exact ⟨⟨hTst.1, hTst.2, hTinv⟩, rfl⟩
    · have hb : (getTensorFromRoot st (pathJoin gi item)).2 = false := by
        rw [hT2]; simpa using hT
      have hbne : ¬((getTensorFromRoot st (pathJoin gi item)).2 = true) := by
        rw [hb]; exact Bool.false_ne_true
      by_cases hG : pathJoin gi item ∈ st.storedGroups
      · have hg : (hasGroupInRoot (getTensorFromRoot st (pathJoin gi item)).1
            (pathJoin gi item)).2 = true := by
          rw [hG2]; simpa using hG
        rw [getitemF, specResolveF, if_neg hbne, hg, if_pos rfl, if_neg hT, if_pos hG]
        exact ⟨⟨hGst.1.trans hTst.1, hGst.2.trans hTst.2, hGinv⟩, rfl⟩
      · have hg : (hasGroupInRoot (getTensorFromRoot st (pathJoin gi item)).1
            (pathJoin gi item)).2 = false := by
          rw [hG2]; simpa using hG
        have hgne : ¬((hasGroupInRoot (getTensorFromRoot st (pathJoin gi item)).1
            (pathJoin gi item)).2 = true) := by
          rw [hg]; exact Bool.false_ne_true
        have hst2T : (hasGroupInRoot (getTensorFromRoot st (pathJoin gi item)).1
            (pathJoin gi item)).1.storedTensors = st.storedTensors :=
          hGst.1.trans hTst.1
        have hst2G : (hasGroupInRoot (getTensorFromRoot st (pathJoin gi item)).1
            (pathJoin gi item)).1.storedGroups = st.storedGroups :=
          hGst.2.trans hTst.2
        by_cases hsep : '/' ∈ item
        · by_cases hlt : (pathSplit item).1.length < item.length
          · have hd : (pathSplit item).1.length < fuel :=
              Nat.lt_of_lt_of_le hlt (Nat.lt_succ_iff.mp hlen)
            have hbnd : (pathSplit item).2.length < fuel :=
              Nat.lt_of_lt_of_le (pathSplit_snd_length_lt item hsep)
                (Nat.lt_succ_iff.mp hlen)
            obtain ⟨⟨h3T, h3G, h3inv⟩, h3r⟩ :=
              ih (hasGroupInRoot (getTensorFromRoot st (pathJoin gi item)).1
                (pathJoin gi item)).1 gi idx (pathSplit item).1 hd hGinv
            rw [hst2T, hst2G] at h3r
            rw [getitemF, specResolveF, if_neg hbne, if_neg hgne, if_pos hsep,
              if_pos hlt, if_neg hT, if_neg hG, if_pos hsep, if_pos hlt, ← h3r]
            rw [hst2T] at h3T
            rw [hst2G] at h3G
            rcases hpair : getitemF fuel
              (hasGroupInRoot (getTensorFromRoot st (pathJoin gi item)).1
                (pathJoin gi item)).1 gi idx (pathSplit item).1 with ⟨st3, r3⟩
            rw [hpair] at h3T h3G h3inv
            cases r3 with
            | error e => exact ⟨⟨h3T, h3G, h3inv⟩, rfl⟩
            | ok res =>
              cases res with
              | tensor p ix => exact ⟨⟨h3T, h3G, h3inv⟩, rfl⟩
              | view gi2 idx2 =>
                obtain ⟨⟨h4T, h4G, h4inv⟩, h4r⟩ :=
                  ih st3 gi2 idx2 (pathSplit item).2 hbnd h3inv
                rw [h3T, h3G] at h4r
                exact ⟨⟨h4T.trans h3T, h4G.trans h3G, h4inv⟩, h4r⟩
          · rw [getitemF, specResolveF, if_neg hbne, if_neg hgne, if_pos hsep,
              if_neg hlt, if_neg hT, if_neg hG, if_pos hsep, if_neg hlt]
            exact ⟨⟨hst2T, hst2G, hGinv⟩, rfl⟩
        · rw [getitemF, specResolveF, if_neg hbne, if_neg hgne, if_neg hsep,
            if_neg hT, if_neg hG, if_neg hsep]
          exact ⟨⟨hst2T, hst2G, hGinv⟩, rfl⟩

/-- Claim C7: for every string name, __getitem__ resolves exactly as the
spec's procedure over the authoritative namespace — (a) a tensor at
group_index/name, returned with the dataset's current index applied and
not composed or modified; (b) else a group at that path, returned as a
narrower view with a deeper group index and the same index; (c) else a
separated name is split and resolved recursively; otherwise
TensorDoesNotExistError — provided the lazily materialized caches only hold
entries present in the stored namespace. -/
theorem getitem_string_resolution_matches_spec :
    ∀ (st : NsState) (gi : PyStr) (idx : Sel) (item : PyStr),
      nsInv st →
      (getitemStr st gi idx item).2 =
        specResolve st.storedTensors st.storedGroups gi idx item := by
  intro st gi idx item hinv
  exact (getitemF_matches_spec (item.length + 1) st gi idx item
    (Nat.lt_succ_self _) hinv).2

/-- A namespace with tensor "g/x" stored but not yet materialized, and
group "g" stored and cached. -/
def nsExample : NsState :=
  ⟨[], [['g']], ["g/x".toList], [['g']]⟩

theorem getitem_string_resolution_matches_spec_witness :
    (getitemStr nsExample [] Sel.all "g/x".toList).2 =
      specResolve nsExample.storedTensors nsExample.storedGroups [] Sel.all
        "g/x".toList ∧
    (getitemStr nsExample [] Sel.all "g/x".toList).2 =
      .ok (.tensor "g/x".toList Sel.all) :=
  ⟨getitem_string_resolution_matches_spec nsExample [] Sel.all "g/x".toList
    (by constructor <;> decide),
   by decide⟩
